import Mathlib

/-!
Verification of the opendkim-genkeys tool (genkeys.py, dnsapi_froxlor.py).

Python strings are embedded as `List Char`; Python `None`-able results as
`Option`; the tri-state delete result (`None` / truthy / falsy) as
`Option Bool` (`none` = unsupported, `some true` = succeeded,
`some false` = failed).  Filesystem and network effects are supplied as
explicit environment functions.
-/

namespace Genkeys

/-- The characters Python's `str.split()` (no separator) splits on. -/
def isPySpace (c : Char) : Bool :=
  c = ' ' || c = '\t' || c = '\n' || c = '\r' || c = '\x0b' || c = '\x0c'

/-- Worker for `pySplit`: accumulates the current word (reversed) while
scanning the input once, exactly as a split on whitespace runs behaves. -/
def pySplitGo : List Char → List Char → List (List Char)
  | [], acc => if acc = [] then [] else [acc.reverse]
  | c :: rest, acc =>
    if isPySpace c then
      if acc = [] then pySplitGo rest [] else acc.reverse :: pySplitGo rest []
    else pySplitGo rest (c :: acc)

/-- Python `line.split()`: split on runs of whitespace, dropping empties
(genkeys.py line 181). -/
def pySplit (l : List Char) : List (List Char) :=
  pySplitGo l []

/-- genkeys.py `fields_to_line` (lines 187-196): join fields with a TAB,
adding the separator only before non-first fields.  The datetime branch of
the source only applies to history records, which are serialised
separately; table rows are plain strings. -/
def fieldsToLine (fields : List (List Char)) : List Char :=
  fields.foldl (fun line f => if line = [] then line ++ f else line ++ '\t' :: f) []

/-- One parsed record of dns_update_data.ini:
`[domain, selector, created_at]` (timestamp already converted, genkeys.py
lines 381-384).  Timestamps are embedded as integers ordered like the
source datetimes. -/
structure HistRecord where
  domain : List Char
  selector : List Char
  created_at : Int
deriving DecidableEq, Repr

/-- The per-domain cleanup loop of genkeys.py (lines 418-441): walk the
history records in order building `new_update_data`;  a record for this
domain whose timestamp is before the cutoff has `delete` called on it, and
is kept unless the delete result is truthy (`some true`); every other
record is appended unchanged. -/
def cleanupUpdateData (dom : List Char) (cutoff : Int)
    (del : HistRecord → Option Bool) : List HistRecord → List HistRecord
  | [] => []
  | r :: rest =>
    let tail := cleanupUpdateData dom cutoff del rest
    if r.domain = dom ∧ r.created_at < cutoff then
      match del r with
      | none => r :: tail
      | some true => tail
      | some false => r :: tail
    else r :: tail

/-- dnsapi_froxlor.py `delete` (lines 108-110): unconditionally `None`
(no deletion support). -/
def froxlor_delete (dnsapiData dnsapiDomainData : List (List Char))
    (recordData : HistRecord) (debugging : Bool) : Option Bool :=
  none

/-- Python `string.ascii_uppercase` as a character list. -/
def asciiUppercase : List Char :=
  "ABCDEFGHIJKLMNOPQRSTUVWXYZ".data

/-- genkeys.py lines 59-61: the candidate suffix list, `['']` alone unless
`find_unused_selector` is set, in which case the 26 uppercase letters
follow. -/
def suffixList (findUnusedSelector : Bool) : List (List Char) :=
  [] :: if findUnusedSelector then asciiUppercase.map (fun c => [c]) else []

/-- Neither the private-key path `target.rs.key` nor the public-key path
`target.rs.txt` exists (genkeys.py lines 65-67). -/
def artifactFree (fileExists : List Char → Bool) (targetName rs : List Char) : Bool :=
  !fileExists (targetName ++ '.' :: rs ++ ".key".data)
    && !fileExists (targetName ++ '.' :: rs ++ ".txt".data)

/-- genkeys.py lines 59-72: the first candidate selector (requested
selector plus suffix, in suffix-list order) whose artifact files do not
already exist; `none` models the `real_selector is None` failure. -/
def chooseRealSelector (fileExists : List Char → Bool)
    (targetName selector : List Char) (findUnusedSelector : Bool) :
    Option (List Char) :=
  ((suffixList findUnusedSelector).map (fun sfx => selector ++ sfx)).find?
    (fun rs => artifactFree fileExists targetName rs)

/-- genkeys.py line 79: the exact command passed to `os.system`; note it
interpolates the *requested* selector, not the collision-avoided one. -/
def genkeyCommand (targetName selector : List Char) : List Char :=
  "opendkim-genkey -b 2048 -r -s ".data ++ selector ++ " -d ".data ++ targetName

/-- Single pass over the public-key text mirroring the find-based quote
scan of genkeys.py lines 119-144: outside quotes, skip to the next
double-quote; inside quotes, accumulate the current chunk; a closing quote
emits the chunk; end of input while inside a quote is the
no-closing-quote `break` (the pending chunk is discarded), end of input
outside quotes is the normal loop exit. -/
def scanGo : List Char → Bool → List Char → List (List Char)
  | [], _, _ => []
  | c :: rest, false, _ =>
    if c = '"' then scanGo rest true [] else scanGo rest false []
  | c :: rest, true, cur =>
    if c = '"' then cur.reverse :: scanGo rest false [] else scanGo rest true (c :: cur)

/-- The list of quoted chunk contents found by the scan loop of genkeys.py
lines 119-144. -/
def scanSegs (l : List Char) : List (List Char) :=
  scanGo l false []

/-- The accumulated `value` of genkeys.py (line 136): the chunk contents
concatenated in order. -/
def plainOf (segs : List (List Char)) : List Char :=
  segs.flatten

/-- The accumulated `chunked_value` of genkeys.py (lines 138-140): each
chunk re-quoted, with a single space before every chunk after the
first. -/
def chunkedOf : List (List Char) → List Char
  | [] => []
  | [s] => '"' :: s ++ ['"']
  | s :: rest => '"' :: s ++ '"' :: ' ' :: chunkedOf rest

/-- The parse of genkeys.py lines 119-149 as a whole: scan the chunks;
both failure exits of the source (`Cannot find start of DNS record value`
inside the loop and `No DNS record value found` after it) fire exactly
when the accumulated `value` is empty. -/
def parseValue (l : List Char) : Option (List (List Char)) :=
  if plainOf (scanSegs l) = [] then none else some (scanSegs l)

/-- The key record returned by `gen_key` (genkeys.py line 163). -/
structure KeyRecord where
  selector : List Char
  plain : List Char
  chunked : List Char
deriving DecidableEq, Repr

/-- The effects `gen_key` performs, supplied as an environment:
`fileExists` is `os.path.exists`; `runTool` is `os.system` returning the
wait status (`none` models the `OSError` branch); `renameOk` is
`os.rename` of source to destination; `readFile` is reading a file's
text (`none` models `IOError`); `removeOk` is `os.remove`.  The
unguarded writes of the chunked public-key file (genkeys.py lines
151-153) raise no caught exception in the source and are not modelled. -/
structure GenKeyEnv where
  fileExists : List Char → Bool
  runTool : List Char → Option Nat
  renameOk : List Char → List Char → Bool
  readFile : List Char → Option (List Char)
  removeOk : List Char → Bool

/-- genkeys.py `gen_key` (lines 57-163).  Returns the key record (or
`none` on any of the source's `return None` paths) paired with the
command string passed to `os.system` (`none` when the tool was never
invoked).  Every step mirrors the source in order: selector choice, tool
invocation with the *requested* selector, wait-status check
`(status & 0xFF00) >> 8`, rename of `selector + ".private"` to the
real-selector-qualified private key path, read of `selector + ".txt"`,
empty-input check, quote parse, empty-value check, and removal of the
intermediate `selector + ".txt"` (whose failure also returns `None` in
the source, lines 156-161). -/
def genKey (env : GenKeyEnv) (targetName selector : List Char)
    (findUnusedSelector : Bool) : Option KeyRecord × Option (List Char) :=
  match chooseRealSelector env.fileExists targetName selector findUnusedSelector with
  | none => (none, none)
  | some rs =>
    let privateKeyFilename := targetName ++ '.' :: rs ++ ".key".data
    let cmd := genkeyCommand targetName selector
    match env.runTool cmd with
    | none => (none, some cmd)
    | some waitStatus =>
      if (waitStatus &&& 0xFF00) >>> 8 ≠ 0 then (none, some cmd)
      else if ¬ env.renameOk (selector ++ ".private".data) privateKeyFilename then
        (none, some cmd)
      else
        match env.readFile (selector ++ ".txt".data) with
        | none => (none, some cmd)
        | some inputText =>
          if inputText.length = 0 then (none, some cmd)
          else
            match parseValue inputText with
            | none => (none, some cmd)
            | some segs =>
              if ¬ env.removeOk (selector ++ ".txt".data) then (none, some cmd)
              else (some { selector := rs, plain := plainOf segs,
                           chunked := chunkedOf segs }, some cmd)

/-- The record-retention predicate: a record survives cleanup for domain
`dom` unless it belongs to `dom`, is past the cutoff, and its delete
succeeded. -/
def keepRecord (dom : List Char) (cutoff : Int) (del : HistRecord → Option Bool)
    (r : HistRecord) : Bool :=
  decide (¬ (r.domain = dom ∧ r.created_at < cutoff ∧ del r = some true))

theorem cleanupUpdateData_eq_filter (dom : List Char) (cutoff : Int)
    (del : HistRecord → Option Bool) (ud : List HistRecord) :
    cleanupUpdateData dom cutoff del ud = ud.filter (keepRecord dom cutoff del) := by
  induction ud with
  | nil => rfl
  | cons r rest ih =>
    simp only [cleanupUpdateData, ih, List.filter_cons, keepRecord]
    by_cases hd : r.domain = dom
    · by_cases hc : r.created_at < cutoff
      · simp only [hd, hc, and_true, true_and, if_true]
        cases hdel : del r with
        | none => simp [hdel]
        | some b => cases b <;> simp [hdel]
      · simp [hd, hc]
    · simp [hd]

/-- In the not-inside-quotes state the current-chunk accumulator is never
consulted. -/
theorem scanGo_false_acc (l : List Char) (cur : List Char) :
    scanGo l false cur = scanGo l false [] := by
  cases l <;> rfl

/-- Unquoted text before the next opening quote is skipped by the scan. -/
theorem scanGo_gap (g l : List Char) (hg : '"' ∉ g) :
    scanGo (g ++ l) false [] = scanGo l false [] := by
  induction g with
  | nil => rfl
  | cons c g ih =>
    have hc : ¬ c = '"' := fun e => hg (by simp [e])
    have hg2 : '"' ∉ g := fun m => hg (List.mem_cons_of_mem c m)
    simp only [List.cons_append, scanGo, hc, if_false]
    exact ih hg2

/-- A quote-free chunk followed by its closing quote is emitted (appended
to the pending accumulator) and scanning resumes outside quotes. -/
theorem scanGo_seg (s l cur : List Char) (hs : '"' ∉ s) :
    scanGo (s ++ '"' :: l) true cur = (cur.reverse ++ s) :: scanGo l false [] := by
  induction s generalizing cur with
  | nil => simp [scanGo]
  | cons c s ih =>
    have hc : ¬ c = '"' := fun e => hs (by simp [e])
    have hs2 : '"' ∉ s := fun m => hs (List.mem_cons_of_mem c m)
    simp only [List.cons_append, scanGo, hc, if_false, List.append_eq]
    rw [ih (c :: cur) hs2]
    simp

/-- Input ending while inside a quote (no closing quote anywhere) yields
no further chunks: the pending chunk is dropped, as by the source's
`break` on the no-closing-quote branch. -/
theorem scanGo_unterminated (s cur : List Char) (hs : '"' ∉ s) :
    scanGo s true cur = [] := by
  induction s generalizing cur with
  | nil => rfl
  | cons c s ih =>
    have hc : ¬ c = '"' := fun e => hs (by simp [e])
    have hs2 : '"' ∉ s := fun m => hs (List.mem_cons_of_mem c m)
    simp only [scanGo, hc, if_false, ih _ hs2]

/-- A text with `pairs.length` complete quoted segments: leading gap `g0`,
then for each pair a quoted segment `p.1` followed by the gap `p.2`. -/
def mkInput (g0 : List Char) (pairs : List (List Char × List Char)) : List Char :=
  g0 ++ (pairs.map (fun p => '"' :: p.1 ++ '"' :: p.2)).flatten

/-- Scanning a properly quoted text recovers exactly its quoted segment
contents, in order. -/
theorem scanSegs_mkInput (g0 : List Char) (pairs : List (List Char × List Char))
    (h0 : '"' ∉ g0) (hp : ∀ p ∈ pairs, '"' ∉ p.1 ∧ '"' ∉ p.2) :
    scanSegs (mkInput g0 pairs) = pairs.map Prod.fst := by
  induction pairs generalizing g0 with
  | nil =>
    have := scanGo_gap g0 [] h0
    simp only [List.append_nil] at this
    simpa [scanSegs, mkInput] using this
  | cons p rest ih =>
    obtain ⟨s, g⟩ := p
    have hs : '"' ∉ s := (hp _ (List.mem_cons_self _ _)).1
    have hg : '"' ∉ g := (hp _ (List.mem_cons_self _ _)).2
    have hrest : ∀ q ∈ rest, '"' ∉ q.1 ∧ '"' ∉ q.2 :=
      fun q m => hp q (List.mem_cons_of_mem _ m)
    have key : mkInput g0 ((s, g) :: rest)
        = g0 ++ '"' :: (s ++ '"' :: mkInput g rest) := by
      simp [mkInput, List.append_assoc]
    rw [scanSegs, key, scanGo_gap _ _ h0]
    have step : scanGo ('"' :: (s ++ '"' :: mkInput g rest)) false []
        = scanGo (s ++ '"' :: mkInput g rest) true [] := by
      simp [scanGo]
    rw [step, scanGo_seg _ _ _ hs]
    simp only [List.reverse_nil, List.nil_append, List.map_cons]
    rw [← scanSegs, ih g hg hrest]

/-- Re-scanning the chunked (re-quoted, space-joined) form recovers the
same segment list. -/
theorem scanSegs_chunkedOf (segs : List (List Char))
    (h : ∀ s ∈ segs, '"' ∉ s) : scanSegs (chunkedOf segs) = segs := by
  induction segs with
  | nil => rfl
  | cons s rest ih =>
    have hs : '"' ∉ s := h _ (List.mem_cons_self _ _)
    have hrest : ∀ q ∈ rest, '"' ∉ q := fun q m => h q (List.mem_cons_of_mem _ m)
    cases rest with
    | nil =>
      show scanGo ('"' :: (s ++ '"' :: [])) false [] = [s]
      have step : scanGo ('"' :: (s ++ '"' :: [])) false []
          = scanGo (s ++ '"' :: []) true [] := by
        simp [scanGo]
      rw [step, scanGo_seg _ _ _ hs]
      simp [scanGo]
    | cons s2 rest2 =>
      show scanGo ('"' :: (s ++ '"' :: ' ' :: chunkedOf (s2 :: rest2))) false [] = s :: s2 :: rest2
      have step : scanGo ('"' :: (s ++ '"' :: ' ' :: chunkedOf (s2 :: rest2))) false []
          = scanGo (s ++ '"' :: ' ' :: chunkedOf (s2 :: rest2)) true [] := by
        simp [scanGo]
      rw [step, scanGo_seg _ _ _ hs]
      have step2 : scanGo (' ' :: chunkedOf (s2 :: rest2)) false []
          = scanGo (chunkedOf (s2 :: rest2)) false [] := by
        simp [scanGo]
      simp only [List.reverse_nil, List.nil_append]
      rw [step2, ← scanSegs, ih hrest]

end Genkeys

namespace Genkeys

/-- C1: with cleanup enabled, the rewritten history for a processed domain
is exactly the input history with the records of that domain that are past
the (once-computed) cutoff and whose provider delete returned succeeded
removed; records whose delete returned failed (`some false`) or
unsupported (`none`), and all records not past the cutoff, are retained
unchanged (genkeys.py lines 390-441). -/
theorem cleanup_removes_iff_old_and_delete_succeeded
    (dom : List Char) (cutoff : Int) (del : HistRecord → Option Bool)
    (ud : List HistRecord) :
    cleanupUpdateData dom cutoff del ud
      = ud.filter (fun r => decide (¬ (r.domain = dom ∧ r.created_at < cutoff ∧ del r = some true)))
    ∧ ∀ r : HistRecord,
        (r ∈ cleanupUpdateData dom cutoff del ud
          ↔ r ∈ ud ∧ ¬ (r.domain = dom ∧ r.created_at < cutoff ∧ del r = some true)) := by
  refine ⟨cleanupUpdateData_eq_filter dom cutoff del ud, ?_⟩
  intro r
  rw [cleanupUpdateData_eq_filter, List.mem_filter, keepRecord]
  simp only [decide_eq_true_eq]

/-- C10: the froxlor backend's delete always reports "unsupported"
(`None`), so the orchestrator's cleanup retains every record of a
froxlor-managed domain, past the cutoff or not: the history passes through
cleanup unchanged. -/
theorem froxlor_delete_unsupported_retains_all
    : (∀ (a b : List (List Char)) (r : HistRecord) (d : Bool),
        froxlor_delete a b r d = none)
    ∧ ∀ (dom : List Char) (cutoff : Int) (a b : List (List Char)) (d : Bool)
        (ud : List HistRecord),
        cleanupUpdateData dom cutoff (fun r => froxlor_delete a b r d) ud = ud := by
  refine ⟨fun a b r d => rfl, fun dom cutoff a b d ud => ?_⟩
  induction ud with
  | nil => rfl
  | cons r rest ih =>
    simp only [cleanupUpdateData, ih]
    split <;> rfl

/-- Whenever `gen_key` returns a record, the record's selector is exactly
the one produced by the collision-avoidance scan. -/
theorem genKey_fst_some_chooseReal (env : GenKeyEnv) (t s : List Char) (f : Bool)
    (rec : KeyRecord) (h : (genKey env t s f).fst = some rec) :
    chooseRealSelector env.fileExists t s f = some rec.selector := by
  cases hsel : chooseRealSelector env.fileExists t s f with
  | none =>
    simp only [genKey, hsel] at h
    exact absurd h (by simp)
  | some rs =>
    simp only [genKey, hsel] at h
    iterate 12 all_goals try split at h
    all_goals try simp_all
    all_goals exact congrArg KeyRecord.selector h

/-- C3: with collision avoidance enabled and the artifacts for the
requested selector `S` already present, the chosen real selector is the
first of `S+"A" … S+"Z"` whose artifact files are both absent; when those
26 candidates are all taken as well, `gen_key` returns the failure
outcome; and any record `gen_key` does return carries that
first-free-candidate selector (genkeys.py lines 57-75). -/
theorem collision_avoidance_first_free_suffix (env : GenKeyEnv)
    (targetName S : List Char)
    (hcol : artifactFree env.fileExists targetName S = false) :
    chooseRealSelector env.fileExists targetName S true
        = (asciiUppercase.map (fun c => S ++ [c])).find?
            (artifactFree env.fileExists targetName)
    ∧ ((∀ rs ∈ asciiUppercase.map (fun c => S ++ [c]),
          artifactFree env.fileExists targetName rs = false) →
        (genKey env targetName S true).fst = none)
    ∧ (∀ rec : KeyRecord, (genKey env targetName S true).fst = some rec →
        (asciiUppercase.map (fun c => S ++ [c])).find?
            (artifactFree env.fileExists targetName) = some rec.selector) := by
  have h1 : chooseRealSelector env.fileExists targetName S true
      = (asciiUppercase.map (fun c => S ++ [c])).find?
          (artifactFree env.fileExists targetName) := by
    have hS : ¬ (artifactFree env.fileExists targetName (S ++ []) = true) := by
      simp [hcol]
    unfold chooseRealSelector suffixList
    rw [if_pos rfl, List.map_cons, List.find?_cons_of_neg _ hS, List.map_map]
    rfl
  refine ⟨h1, ?_, ?_⟩
  · intro hall
    have hnone : chooseRealSelector env.fileExists targetName S true = none := by
      rw [h1, List.find?_eq_none]
      intro x hx
      rw [hall x hx]
      simp
    simp [genKey, hnone]
  · intro rec hrec
    have := genKey_fst_some_chooseReal env targetName S true rec hrec
    rw [h1] at this
    exact this

/-- An environment in which every artifact path already exists. -/
def envAllExist : GenKeyEnv :=
  { fileExists := fun _ => true
    runTool := fun _ => some 0
    renameOk := fun _ _ => true
    readFile := fun _ => some []
    removeOk := fun _ => true }

theorem collision_avoidance_first_free_suffix_witness :
    artifactFree envAllExist.fileExists "dom".data "2024".data = false
    ∧ (genKey envAllExist "dom".data "2024".data true).fst = none :=
  ⟨by decide,
    (collision_avoidance_first_free_suffix envAllExist "dom".data "2024".data
      (by decide)).2.1 (by decide)⟩

/-- C6 counterexample: the text `""` consists of exactly one complete
quoted segment, yet the parse fails (returns the failure outcome) rather
than producing `plain_value` equal to the (empty) concatenation of the
segment contents, because the source rejects an empty accumulated
value. -/
theorem chunk_roundtrip_counterexample :
    mkInput [] [([], [])] = ['"', '"']
    ∧ parseValue (mkInput [] [([], [])]) = none :=
  ⟨rfl, rfl⟩

/-- C6 (amended): for a properly quoted text whose segments' concatenated
content is nonempty, the scan recovers exactly the segments in order,
`plain_value` is their concatenation, and re-scanning the chunked
(quoted, space-joined) value yields the same segments in the same
order. -/
theorem chunk_roundtrip_amended (g0 : List Char)
    (pairs : List (List Char × List Char))
    (h0 : '"' ∉ g0) (hp : ∀ p ∈ pairs, '"' ∉ p.1 ∧ '"' ∉ p.2)
    (hne : plainOf (pairs.map Prod.fst) ≠ []) :
    scanSegs (mkInput g0 pairs) = pairs.map Prod.fst
    ∧ parseValue (mkInput g0 pairs) = some (pairs.map Prod.fst)
    ∧ scanSegs (chunkedOf (pairs.map Prod.fst)) = pairs.map Prod.fst := by
  have h1 := scanSegs_mkInput g0 pairs h0 hp
  refine ⟨h1, ?_, ?_⟩
  · rw [parseValue, h1, if_neg hne]
  · refine scanSegs_chunkedOf _ ?_
    intro s hs
    rcases List.mem_map.mp hs with ⟨p, hpmem, rfl⟩
    exact (hp p hpmem).1

theorem chunk_roundtrip_amended_witness :
    plainOf (([("abc".data, [' ']), ("def".data, [])]).map Prod.fst) ≠ []
    ∧ (scanSegs (mkInput ['x', ' '] [("abc".data, [' ']), ("def".data, [])])
        = ([("abc".data, [' ']), ("def".data, [])]).map Prod.fst
      ∧ parseValue (mkInput ['x', ' '] [("abc".data, [' ']), ("def".data, [])])
        = some (([("abc".data, [' ']), ("def".data, [])]).map Prod.fst)
      ∧ scanSegs (chunkedOf (([("abc".data, [' ']), ("def".data, [])]).map Prod.fst))
        = ([("abc".data, [' ']), ("def".data, [])]).map Prod.fst) :=
  ⟨by decide,
    chunk_roundtrip_amended ['x', ' '] [("abc".data, [' ']), ("def".data, [])]
      (by decide) (by decide) (by decide)⟩

/-- An environment where the artifacts for selector `2024` exist, forcing
collision avoidance onto `2024A`, and every later step succeeds. -/
def envC7 : GenKeyEnv :=
  { fileExists := fun l => decide (l = "dom.2024.key".data)
    runTool := fun _ => some 0
    renameOk := fun _ _ => true
    readFile := fun _ => some ('"' :: 'a' :: 'b' :: 'c' :: ['"'])
    removeOk := fun _ => true }

/-- C7 counterexample: collision avoidance picks real selector `2024A`,
yet the command passed to the external tool is built from the requested
selector `2024`, not from `2024A`. -/
theorem tool_selector_counterexample :
    (genKey envC7 "dom".data "2024".data true).fst
        = some { selector := "2024A".data, plain := "abc".data,
                 chunked := '"' :: 'a' :: 'b' :: 'c' :: ['"'] }
    ∧ (genKey envC7 "dom".data "2024".data true).snd
        = some (genkeyCommand "dom".data "2024".data)
    ∧ genkeyCommand "dom".data "2024".data ≠ genkeyCommand "dom".data "2024A".data :=
  ⟨by decide, by decide, by decide⟩

/-- C7 (amended): whenever `gen_key` invokes the external tool at all, the
command interpolates the domain and the *requested* selector (genkeys.py
line 79); the real selector enters only through the rename target and the
returned record. -/
theorem tool_invoked_with_requested_selector (env : GenKeyEnv)
    (t s : List Char) (f : Bool) :
    (genKey env t s f).snd = none
    ∨ (genKey env t s f).snd = some (genkeyCommand t s) := by
  rcases hsel : chooseRealSelector env.fileExists t s f with _ | rs
  · left
    simp [genKey, hsel]
  · right
    simp only [genKey, hsel]
    iterate 14 all_goals try split
    all_goals rfl

/-- An environment whose public-key text is `"abc" "def`: one complete
quoted segment followed by an unterminated quote. -/
def envC8 : GenKeyEnv :=
  { fileExists := fun _ => false
    runTool := fun _ => some 0
    renameOk := fun _ _ => true
    readFile := fun _ => some ('"' :: 'a' :: 'b' :: 'c' :: '"' :: ' ' :: '"' :: 'd' :: 'e' :: ['f'])
    removeOk := fun _ => true }

/-- C8 counterexample: the public-key text contains an unterminated
opening quote preceded by one complete segment, and `gen_key`
*succeeds*, returning the truncated data, instead of failing. -/
theorem unterminated_quote_counterexample :
    envC8.readFile ("2024".data ++ ".txt".data)
      = some (mkInput [] [("abc".data, [' '])] ++ '"' :: "def".data)
    ∧ (genKey envC8 "dom".data "2024".data false).fst
      = some { selector := "2024".data, plain := "abc".data,
               chunked := '"' :: 'a' :: 'b' :: 'c' :: ['"'] } :=
  ⟨by decide, by decide⟩

/-- C8 (amended): an unterminated quote with *no complete quoted segment
of content before it* (the whole text is a quote-free gap, the opening
quote, then a quote-free remainder) is a fatal parse error: `gen_key`
returns the failure outcome. -/
theorem unterminated_quote_empty_value_fails (env : GenKeyEnv)
    (t s : List Char) (f : Bool) (gap rest : List Char)
    (hg : '"' ∉ gap) (hr : '"' ∉ rest)
    (hread : env.readFile (s ++ ".txt".data) = some (gap ++ '"' :: rest)) :
    (genKey env t s f).fst = none := by
  have hscan : scanSegs (gap ++ '"' :: rest) = [] := by
    rw [scanSegs, scanGo_gap _ _ hg]
    have step : scanGo ('"' :: rest) false [] = scanGo rest true [] := by
      simp [scanGo]
    rw [step, scanGo_unterminated _ _ hr]
  have hparse : parseValue (gap ++ '"' :: rest) = none := by
    rw [parseValue, hscan]
    rfl
  rcases hsel : chooseRealSelector env.fileExists t s f with _ | rs
  · simp [genKey, hsel]
  · simp only [genKey, hsel]
    iterate 14 all_goals try split
    all_goals first | rfl | simp_all

/-- Environment whose public-key text is `x"abc`: an unterminated quote
with no complete segment before it. -/
def envC8w : GenKeyEnv :=
  { fileExists := fun _ => false
    runTool := fun _ => some 0
    renameOk := fun _ _ => true
    readFile := fun _ => some ('x' :: '"' :: "abc".data)
    removeOk := fun _ => true }

theorem unterminated_quote_empty_value_fails_witness :
    ('"' ∉ ['x'] ∧ '"' ∉ "abc".data)
    ∧ (genKey envC8w "dom".data "2024".data false).fst = none :=
  ⟨by decide,
    unterminated_quote_empty_value_fails envC8w "dom".data "2024".data false
      ['x'] "abc".data (by decide) (by decide) rfl⟩

end Genkeys

namespace Genkeys

/-- genkeys.py line 33: the OpenDKIM key directory constant. -/
def opendkimDir : List Char :=
  "/etc/opendkim/keys".data

/-- genkeys.py line 518: `item[0].replace('.', '-')`. -/
def selectorCode (domain : List Char) : List Char :=
  domain.map (fun c => if c = '.' then '-' else c)

/-- genkeys.py line 505: `key_item[1].split(':')[0]` — everything before
the first colon (the whole string when there is none). -/
def splitColonHead : List Char → List Char
  | [] => []
  | c :: rest => if c = ':' then [] else c :: splitColonHead rest

/-- The second field of a freshly emitted key-table line (genkeys.py
lines 521-522): `domain:selector:opendkim_dir/keyname.selector.key`. -/
def keyTableSecondField (domain keyname selector : List Char) : List Char :=
  domain ++ (':' :: (selector ++ (':' :: (opendkimDir
    ++ ('/' :: (keyname ++ ('.' :: (selector ++ ".key".data))))))))

/-- A freshly emitted key-table line (genkeys.py lines 521-522, without
the trailing newline): `code TAB domain:selector:dir/keyname.selector.key`. -/
def freshKeyTableLine (domain keyname selector : List Char) : List Char :=
  selectorCode domain ++ '\t' :: keyTableSecondField domain keyname selector

/-- A freshly emitted signing-table line (genkeys.py line 523):
`*@domain TAB code`. -/
def freshSigningLine (domain : List Char) : List Char :=
  '*' :: '@' :: domain ++ '\t' :: selectorCode domain

/-- One key-table row together with the signing-table row written beside
it, tagged with the domain the pair belongs to (the carried-forward loop
derives this owner from the prior key-table field, the fresh loop from
the domain registry entry). -/
structure TableEntry where
  owner : List Char
  keyLine : List Char
  signLine : List Char
deriving DecidableEq, Repr

/-- The carry-forward loop of genkeys.py lines 504-514: for each record of
the previously persisted key table whose second field's colon-head is
among the failed domains, re-emit the record joined by tabs as the key
line, and `*@domain TAB first-field` as the signing line.  Rows of a
well-formed key table have at least two fields; missing fields read as
the empty string. -/
def carryEntries : List (List (List Char)) → List (List Char) → List TableEntry
  | [], _ => []
  | keyItem :: rest, failed =>
    if splitColonHead (keyItem.getD 1 []) ∈ failed then
      { owner := splitColonHead (keyItem.getD 1 [])
        keyLine := fieldsToLine keyItem
        signLine := '*' :: '@' :: splitColonHead (keyItem.getD 1 [])
          ++ '\t' :: keyItem.getD 0 [] } :: carryEntries rest failed
    else carryEntries rest failed

/-- The fresh-emit loop of genkeys.py lines 516-527: every registry domain
not in the failed set gets a newly formatted key-table line and signing
line. -/
def freshEntries : List (List (List Char)) → List Char → List (List Char) → List TableEntry
  | [], _, _ => []
  | item :: rest, selector, failed =>
    if item.getD 0 [] ∈ failed then freshEntries rest selector failed
    else
      { owner := item.getD 0 []
        keyLine := freshKeyTableLine (item.getD 0 []) (item.getD 1 []) selector
        signLine := freshSigningLine (item.getD 0 []) } :: freshEntries rest selector failed

/-- The full table-generation step (genkeys.py lines 494-527): carried
lines first, then fresh lines. -/
def emitEntries (keyTableData domainData : List (List (List Char)))
    (selector : List Char) (failed : List (List Char)) : List TableEntry :=
  carryEntries keyTableData failed ++ freshEntries domainData selector failed

/-- No whitespace character (in Python split's sense) occurs in `l`. -/
def noWS (l : List Char) : Prop :=
  ∀ c ∈ l, isPySpace c = false

instance noWS_decidable (l : List Char) : Decidable (noWS l) :=
  inferInstanceAs (Decidable (∀ c ∈ l, isPySpace c = false))

theorem noWS_append {a b : List Char} (ha : noWS a) (hb : noWS b) :
    noWS (a ++ b) :=
  fun c hc => (List.mem_append.mp hc).elim (ha c) (hb c)

theorem noWS_cons {c : Char} {l : List Char} (hc : isPySpace c = false)
    (hl : noWS l) : noWS (c :: l) := by
  intro d hd
  rcases List.mem_cons.mp hd with h | h
  · exact h ▸ hc
  · exact hl d h

/-- Scanning a whitespace-free word prepends it (reversed) to the pending
accumulator. -/
theorem pySplitGo_word (w : List Char) (l acc : List Char) (hw : noWS w) :
    pySplitGo (w ++ l) acc = pySplitGo l (w.reverse ++ acc) := by
  induction w generalizing acc with
  | nil => rfl
  | cons c w ih =>
    have hc : isPySpace c = false := hw c (List.mem_cons_self _ _)
    have hw2 : noWS w := fun d hd => hw d (List.mem_cons_of_mem c hd)
    simp only [List.cons_append, pySplitGo, hc, Bool.false_eq_true, if_false,
      List.append_eq]
    rw [ih (c :: acc) hw2]
    simp

/-- A single whitespace-free nonempty word splits to itself. -/
theorem pySplit_single (b : List Char) (hb : b ≠ []) (hbw : noWS b) :
    pySplitGo b [] = [b] := by
  have h := pySplitGo_word b [] [] hbw
  rw [List.append_nil, List.append_nil] at h
  rw [h]
  have : b.reverse ≠ [] := by simpa using hb
  simp [pySplitGo, this]

/-- Splitting `a TAB b` for whitespace-free nonempty `a`, `b` recovers the
two fields. -/
theorem pySplit_two_fields (a b : List Char) (ha : a ≠ []) (hb : b ≠ [])
    (haw : noWS a) (hbw : noWS b) :
    pySplit (a ++ '\t' :: b) = [a, b] := by
  rw [pySplit, pySplitGo_word a ('\t' :: b) [] haw, List.append_nil]
  have hra : a.reverse ≠ [] := by simpa using ha
  have htab : isPySpace '\t' = true := by decide
  simp only [pySplitGo, htab, if_true, hra, if_neg hra, List.reverse_reverse]
  rw [pySplit_single b hb hbw]
  simp

/-- `fields_to_line` on two fields, the first nonempty, joins them with a
single TAB. -/
theorem fieldsToLine_two (a b : List Char) (ha : a ≠ []) :
    fieldsToLine [a, b] = a ++ '\t' :: b := by
  simp [fieldsToLine, ha]

/-- The colon-head of `domain ++ ':' :: rest` is `domain` when `domain`
is colon-free. -/
theorem splitColonHead_append (domain rest : List Char)
    (h : ∀ c ∈ domain, ¬ c = ':') :
    splitColonHead (domain ++ ':' :: rest) = domain := by
  induction domain with
  | nil => simp [splitColonHead]
  | cons c d ih =>
    have hc : ¬ c = ':' := h c (List.mem_cons_self _ _)
    have hd : ∀ x ∈ d, ¬ x = ':' := fun x hx => h x (List.mem_cons_of_mem c hx)
    simp [splitColonHead, hc, ih hd]

/-- C2: a key-table line and signing-table line as emitted by the previous
run for a (whitespace-free, colon-free) domain, once re-read by the
whitespace split of `process_ini_file`, are re-emitted byte-identically by
the carry-forward loop when that domain is in the failed set: the key
line is the tab-join of the parsed fields and the signing line is rebuilt
from the parsed code and the colon-head domain (genkeys.py lines 187-196
and 503-514). -/
theorem carry_forward_byte_identical (domain keyname selector : List Char)
    (hdom : domain ≠ [])
    (hdomc : ∀ c ∈ domain, isPySpace c = false ∧ ¬ c = ':')
    (hselc : noWS selector) (hkeyc : noWS keyname) :
    pySplit (freshKeyTableLine domain keyname selector)
      = [selectorCode domain, keyTableSecondField domain keyname selector]
    ∧ carryEntries [pySplit (freshKeyTableLine domain keyname selector)] [domain]
      = [{ owner := domain
           keyLine := freshKeyTableLine domain keyname selector
           signLine := freshSigningLine domain }] := by
  have hdw : noWS domain := fun c hc => (hdomc c hc).1
  have hdcolon : ∀ c ∈ domain, ¬ c = ':' := fun c hc => (hdomc c hc).2
  have hcode_ne : selectorCode domain ≠ [] := by
    simpa [selectorCode] using hdom
  have hcodew : noWS (selectorCode domain) := by
    intro c hc
    rcases List.mem_map.mp hc with ⟨d, hd, rfl⟩
    by_cases hdot : d = '.'
    · simp only [hdot, if_pos rfl]
      decide
    · simp only [if_neg hdot]
      exact hdw d hd
  have hsecond_ne : keyTableSecondField domain keyname selector ≠ [] := by
    simp [keyTableSecondField]
  have hsecw : noWS (keyTableSecondField domain keyname selector) := by
    unfold keyTableSecondField
    refine noWS_append hdw ?_
    refine noWS_cons (by decide) ?_
    refine noWS_append hselc ?_
    refine noWS_cons (by decide) ?_
    refine noWS_append (by decide) ?_
    refine noWS_cons (by decide) ?_
    refine noWS_append hkeyc ?_
    refine noWS_cons (by decide) ?_
    refine noWS_append hselc ?_
    decide
  have hsplit : pySplit (freshKeyTableLine domain keyname selector)
      = [selectorCode domain, keyTableSecondField domain keyname selector] := by
    unfold freshKeyTableLine
    exact pySplit_two_fields _ _ hcode_ne hsecond_ne hcodew hsecw
  have hkd : splitColonHead (keyTableSecondField domain keyname selector) = domain := by
    unfold keyTableSecondField
    exact splitColonHead_append _ _ hdcolon
  refine ⟨hsplit, ?_⟩
  rw [hsplit]
  simp [carryEntries, hkd, fieldsToLine_two _ _ hcode_ne, freshKeyTableLine,
    freshSigningLine]

theorem carry_forward_byte_identical_witness :
    ("example.com".data ≠ []
      ∧ ∀ c ∈ "example.com".data, isPySpace c = false ∧ ¬ c = ':')
    ∧ (pySplit (freshKeyTableLine "example.com".data "keyA".data "202401".data)
        = [selectorCode "example.com".data,
           keyTableSecondField "example.com".data "keyA".data "202401".data]
      ∧ carryEntries
          [pySplit (freshKeyTableLine "example.com".data "keyA".data "202401".data)]
          ["example.com".data]
        = [{ owner := "example.com".data
             keyLine := freshKeyTableLine "example.com".data "keyA".data "202401".data
             signLine := freshSigningLine "example.com".data }]) :=
  ⟨⟨by decide, by decide⟩,
    carry_forward_byte_identical "example.com".data "keyA".data "202401".data
      (by decide) (by decide) (by decide) (by decide)⟩

end Genkeys

namespace Genkeys

/-- The `key_data` dict passed to a provider's `add` after the
orchestrator sets `key_data['domain']` and `key_data['dnsapi']`
(genkeys.py lines 406, 414-415). -/
structure AddCtx where
  selector : List Char
  plain : List Char
  chunked : List Char
  domain : List Char
  dnsapi : List Char
deriving DecidableEq, Repr

/-- The DNS side of the orchestrator's environment.  The `dnsapis` dict of
loaded provider modules is modelled as a membership predicate `hasModule`
plus the name-indexed method tables `addF` (arguments: module name,
dnsapi_data, dnsapi_domain_data, key_data, debug flag; `some r` models a
truthy `result[0]` with `result[1:]` parsed as the history record `r`,
`none` a falsy one) and `delF` (the tri-state delete).  `dnsapiInfo` is
the dnsapi.ini table (genkeys.py lines 324-331). -/
structure DnsApiEnv where
  hasModule : List Char → Bool
  addF : List Char → List (List Char) → List (List Char) → AddCtx → Bool → Option HistRecord
  delF : List Char → List (List Char) → List (List Char) → HistRecord → Bool → Option Bool
  dnsapiInfo : List Char → Option (List (List Char))

/-- The mutable state of the DNS update loop: the in-memory history
(`none` when dns_update_data.ini could not be read) and the
failed-domains list (genkeys.py lines 377, 392). -/
structure DnsState where
  updateData : Option (List HistRecord)
  failed : List (List Char)
deriving DecidableEq, Repr

/-- genkeys.py lines 398-404: under `--use-null` every provider except the
one literally named `fail` is replaced by the null module. -/
def effectiveModuleName (useNull : Bool) (name : List Char) : List Char :=
  if useNull then (if name = "fail".data then name else "null".data) else name

/-- The cleanup part of one loop iteration (genkeys.py lines 416-441):
only with cleanup enabled and a loaded history is the domain's expired
portion pruned; a missing history stays missing. -/
def cleanupStep (dom : List Char) (cutoff : Int)
    (del : HistRecord → Option Bool) (cf : Bool)
    (ud : Option (List HistRecord)) : Option (List HistRecord) :=
  match ud with
  | some l => if cf then some (cleanupUpdateData dom cutoff del l) else some l
  | none => none

/-- The publish part of one loop iteration (genkeys.py lines 442-454): a
truthy add result appends its record to the history (creating it when it
was never loaded, line 448-450); a falsy one appends the domain to the
failed list. -/
def addStep (res : Option HistRecord) (dom : List Char)
    (ud1 : Option (List HistRecord)) (failed : List (List Char)) : DnsState :=
  match res with
  | some rec => { updateData := some (ud1.getD [] ++ [rec]), failed := failed }
  | none => { updateData := ud1, failed := failed ++ [dom] }

/-- One iteration of the per-domain DNS update loop (genkeys.py lines
393-454): skip items with at most two fields; resolve module, provider
config and key record, skipping the item entirely (no failed-set entry)
when any lookup misses; then cleanup followed by publish. -/
def processItem (env : DnsApiEnv) (keys : List Char → Option KeyRecord)
    (useNull debug cleanupFiles : Bool) (cutoff : Int)
    (st : DnsState) (item : List (List Char)) : DnsState :=
  if 2 < item.length then
    let domain := item.getD 0 []
    let dnsapiName := item.getD 2 []
    let dnsapiDomainData := item.drop 3
    let modName := effectiveModuleName useNull dnsapiName
    if env.hasModule modName then
      match env.dnsapiInfo dnsapiName, keys (item.getD 1 []) with
      | some dnsapiData, some key =>
        let ctx : AddCtx := { selector := key.selector, plain := key.plain,
                              chunked := key.chunked, domain := domain,
                              dnsapi := dnsapiName }
        addStep (env.addF modName dnsapiData dnsapiDomainData ctx debug) domain
          (cleanupStep domain cutoff
            (fun r => env.delF modName dnsapiData dnsapiDomainData r debug)
            cleanupFiles st.updateData)
          st.failed
      | _, _ => st
    else st
  else st

/-- The whole DNS update loop (genkeys.py lines 393-454), a left fold of
`processItem` over the domain registry. -/
def processDomains (env : DnsApiEnv) (keys : List Char → Option KeyRecord)
    (useNull debug cleanupFiles : Bool) (cutoff : Int)
    (st : DnsState) (items : List (List (List Char))) : DnsState :=
  items.foldl (processItem env keys useNull debug cleanupFiles cutoff) st

/-- The history records belonging to domain `B` (empty when the history
was never loaded). -/
def histFor (B : List Char) (ud : Option (List HistRecord)) : List HistRecord :=
  (ud.getD []).filter (fun r => decide (r.domain = B))

theorem cleanupUpdateData_filter_comm (B dom : List Char) (cutoff : Int)
    (del : HistRecord → Option Bool) (l : List HistRecord) :
    (cleanupUpdateData dom cutoff del l).filter (fun r => decide (r.domain = B))
      = cleanupUpdateData dom cutoff del
          (l.filter (fun r => decide (r.domain = B))) := by
  rw [cleanupUpdateData_eq_filter, cleanupUpdateData_eq_filter,
    List.filter_filter, List.filter_filter]
  exact List.filter_congr (fun a _ => Bool.and_comm _ _)

/-- The cleanup step of one loop iteration commutes with restriction of
the history to one domain's records. -/
theorem histFor_cleanupStep (B dom : List Char) (cutoff : Int)
    (del : HistRecord → Option Bool) (cf : Bool)
    (ud : Option (List HistRecord)) :
    histFor B (cleanupStep dom cutoff del cf ud)
      = (if cf then cleanupUpdateData dom cutoff del (histFor B ud)
         else histFor B ud) := by
  cases ud with
  | none =>
    cases cf <;> simp [histFor, cleanupStep, cleanupUpdateData]
  | some l =>
    cases cf <;> simp [histFor, cleanupStep, cleanupUpdateData_filter_comm]

/-- The publish step appends at most the returned record to one domain's
history slice. -/
theorem histFor_addStep (B : List Char) (res : Option HistRecord)
    (dom : List Char) (ud1 : Option (List HistRecord))
    (f : List (List Char)) :
    histFor B (addStep res dom ud1 f).updateData
      = histFor B ud1 ++ (match res with
          | some r => if r.domain = B then [r] else []
          | none => []) := by
  cases res with
  | none => simp [addStep]
  | some r =>
    simp only [addStep, histFor, Option.getD_some, List.filter_append]
    by_cases h : r.domain = B <;> simp [h, List.filter]

/-- Membership in the failed list after the publish step. -/
theorem mem_addStep_failed (B : List Char) (res : Option HistRecord)
    (dom : List Char) (ud1 : Option (List HistRecord))
    (f : List (List Char)) :
    B ∈ (addStep res dom ud1 f).failed ↔ (B ∈ f ∨ (res = none ∧ B = dom)) := by
  cases res <;> simp [addStep]

/-- One loop iteration preserves agreement of domain `B`'s history slice
and failed-set membership between a run whose provider adds fail for
domain `A` and one where only the outcomes of `A`'s adds differ, provided
`A ≠ B` and every successful add returns a record for the domain it was
called with. -/
theorem processItem_isolation (env : DnsApiEnv)
    (addF₂ : List Char → List (List Char) → List (List Char) → AddCtx → Bool → Option HistRecord)
    (keys : List Char → Option KeyRecord)
    (useNull debug cleanupFiles : Bool) (cutoff : Int)
    (A B : List Char) (hAB : ¬ A = B)
    (hAdd : ∀ n a d ctx dbg, ¬ ctx.domain = A →
      addF₂ n a d ctx dbg = env.addF n a d ctx dbg)
    (hdom₁ : ∀ n a d ctx dbg r, env.addF n a d ctx dbg = some r → r.domain = ctx.domain)
    (hdom₂ : ∀ n a d ctx dbg r, addF₂ n a d ctx dbg = some r → r.domain = ctx.domain)
    (st₁ st₂ : DnsState) (item : List (List Char))
    (hud : histFor B st₁.updateData = histFor B st₂.updateData)
    (hf : B ∈ st₁.failed ↔ B ∈ st₂.failed) :
    histFor B (processItem env keys useNull debug cleanupFiles cutoff st₁ item).updateData
      = histFor B (processItem { env with addF := addF₂ } keys useNull debug cleanupFiles cutoff st₂ item).updateData
    ∧ (B ∈ (processItem env keys useNull debug cleanupFiles cutoff st₁ item).failed
        ↔ B ∈ (processItem { env with addF := addF₂ } keys useNull debug cleanupFiles cutoff st₂ item).failed) := by
  by_cases hlen : 2 < item.length
  swap
  · simp only [processItem, if_neg hlen]
    exact ⟨hud, hf⟩
  simp only [processItem, if_pos hlen]
  cases hmodb : env.hasModule (effectiveModuleName useNull (item.getD 2 [])) with
  | false =>
    simp only [hmodb, Bool.false_eq_true, if_false]
    exact ⟨hud, hf⟩
  | true =>
    simp only [hmodb, if_true]
    cases hinfo : env.dnsapiInfo (item.getD 2 []) with
    | none =>
      simp only [hinfo]
      exact ⟨hud, hf⟩
    | some dnsapiData =>
      cases hkey : keys (item.getD 1 []) with
      | none =>
        simp only [hinfo, hkey]
        exact ⟨hud, hf⟩
      | some key =>
        simp only [hinfo, hkey]
        have hud1 : histFor B (cleanupStep (item.getD 0 []) cutoff
              (fun r => env.delF (effectiveModuleName useNull (item.getD 2 []))
                dnsapiData (item.drop 3) r debug) cleanupFiles st₁.updateData)
            = histFor B (cleanupStep (item.getD 0 []) cutoff
              (fun r => env.delF (effectiveModuleName useNull (item.getD 2 []))
                dnsapiData (item.drop 3) r debug) cleanupFiles st₂.updateData) := by
          rw [histFor_cleanupStep, histFor_cleanupStep, hud]
        by_cases hdomA : item.getD 0 [] = A
        · constructor
          · rw [histFor_addStep, histFor_addStep, hud1]
            congr 1
            have e1 : (match env.addF (effectiveModuleName useNull (item.getD 2 []))
                  dnsapiData (item.drop 3)
                  { selector := key.selector, plain := key.plain,
                    chunked := key.chunked, domain := item.getD 0 [],
                    dnsapi := item.getD 2 [] } debug with
                | some r => if r.domain = B then [r] else []
                | none => ([] : List HistRecord)) = [] := by
              cases ha : env.addF (effectiveModuleName useNull (item.getD 2 []))
                  dnsapiData (item.drop 3)
                  { selector := key.selector, plain := key.plain,
                    chunked := key.chunked, domain := item.getD 0 [],
                    dnsapi := item.getD 2 [] } debug with
              | none => rfl
              | some r =>
                have hr : r.domain = item.getD 0 [] := hdom₁ _ _ _ _ _ _ ha
                have : ¬ r.domain = B := by
                  rw [hr, hdomA]
                  exact hAB
                simp [this]
            have e2 : (match addF₂ (effectiveModuleName useNull (item.getD 2 []))
                  dnsapiData (item.drop 3)
                  { selector := key.selector, plain := key.plain,
                    chunked := key.chunked, domain := item.getD 0 [],
                    dnsapi := item.getD 2 [] } debug with
                | some r => if r.domain = B then [r] else []
                | none => ([] : List HistRecord)) = [] := by
              cases ha : addF₂ (effectiveModuleName useNull (item.getD 2 []))
                  dnsapiData (item.drop 3)
                  { selector := key.selector, plain := key.plain,
                    chunked := key.chunked, domain := item.getD 0 [],
                    dnsapi := item.getD 2 [] } debug with
              | none => rfl
              | some r =>
                have hr : r.domain = item.getD 0 [] := hdom₂ _ _ _ _ _ _ ha
                have : ¬ r.domain = B := by
                  rw [hr, hdomA]
                  exact hAB
                simp [this]
            rw [e1, e2]
          · rw [mem_addStep_failed, mem_addStep_failed]
            have hBd : ¬ B = item.getD 0 [] := by
              rw [hdomA]
              intro e
              exact hAB e.symm
            constructor
            · rintro (h | ⟨_, h2⟩)
              · exact Or.inl (hf.mp h)
              · exact absurd h2 hBd
            · rintro (h | ⟨_, h2⟩)
              · exact Or.inl (hf.mpr h)
              · exact absurd h2 hBd
        · have haddeq : addF₂ (effectiveModuleName useNull (item.getD 2 []))
              dnsapiData (item.drop 3)
              { selector := key.selector, plain := key.plain,
                chunked := key.chunked, domain := item.getD 0 [],
                dnsapi := item.getD 2 [] } debug
              = env.addF (effectiveModuleName useNull (item.getD 2 []))
              dnsapiData (item.drop 3)
              { selector := key.selector, plain := key.plain,
                chunked := key.chunked, domain := item.getD 0 [],
                dnsapi := item.getD 2 [] } debug :=
            hAdd _ _ _ _ _ hdomA
          rw [haddeq]
          constructor
          · rw [histFor_addStep, histFor_addStep, hud1]
          · rw [mem_addStep_failed, mem_addStep_failed]
            exact or_congr hf Iff.rfl

/-- The whole DNS update loop preserves the agreement of `processItem_isolation`. -/
theorem processDomains_isolation (env : DnsApiEnv)
    (addF₂ : List Char → List (List Char) → List (List Char) → AddCtx → Bool → Option HistRecord)
    (keys : List Char → Option KeyRecord)
    (useNull debug cleanupFiles : Bool) (cutoff : Int)
    (A B : List Char) (hAB : ¬ A = B)
    (hAdd : ∀ n a d ctx dbg, ¬ ctx.domain = A →
      addF₂ n a d ctx dbg = env.addF n a d ctx dbg)
    (hdom₁ : ∀ n a d ctx dbg r, env.addF n a d ctx dbg = some r → r.domain = ctx.domain)
    (hdom₂ : ∀ n a d ctx dbg r, addF₂ n a d ctx dbg = some r → r.domain = ctx.domain)
    (items : List (List (List Char))) (st₁ st₂ : DnsState)
    (hud : histFor B st₁.updateData = histFor B st₂.updateData)
    (hf : B ∈ st₁.failed ↔ B ∈ st₂.failed) :
    histFor B (processDomains env keys useNull debug cleanupFiles cutoff st₁ items).updateData
      = histFor B (processDomains { env with addF := addF₂ } keys useNull debug cleanupFiles cutoff st₂ items).updateData
    ∧ (B ∈ (processDomains env keys useNull debug cleanupFiles cutoff st₁ items).failed
        ↔ B ∈ (processDomains { env with addF := addF₂ } keys useNull debug cleanupFiles cutoff st₂ items).failed) := by
  induction items generalizing st₁ st₂ with
  | nil => exact ⟨hud, hf⟩
  | cons item rest ih =>
    have step := processItem_isolation env addF₂ keys useNull debug cleanupFiles
      cutoff A B hAB hAdd hdom₁ hdom₂ st₁ st₂ item hud hf
    simpa [processDomains, List.foldl_cons] using ih _ _ step.1 step.2

/-- The failed list only grows across one iteration. -/
theorem processItem_failed_mono (env : DnsApiEnv)
    (keys : List Char → Option KeyRecord)
    (useNull debug cleanupFiles : Bool) (cutoff : Int)
    (st : DnsState) (item : List (List Char)) (B : List Char)
    (h : B ∈ st.failed) :
    B ∈ (processItem env keys useNull debug cleanupFiles cutoff st item).failed := by
  by_cases hlen : 2 < item.length
  swap
  · simp only [processItem, if_neg hlen]
    exact h
  simp only [processItem, if_pos hlen]
  cases hmodb : env.hasModule (effectiveModuleName useNull (item.getD 2 [])) with
  | false =>
    simp only [hmodb, Bool.false_eq_true, if_false]
    exact h
  | true =>
    simp only [hmodb, if_true]
    cases hinfo : env.dnsapiInfo (item.getD 2 []) with
    | none =>
      simp only [hinfo]
      exact h
    | some dnsapiData =>
      cases hkey : keys (item.getD 1 []) with
      | none =>
        simp only [hinfo, hkey]
        exact h
      | some key =>
        simp only [hinfo, hkey]
        rw [mem_addStep_failed]
        exact Or.inl h

/-- The failed list only grows across the whole loop. -/
theorem processDomains_failed_mono (env : DnsApiEnv)
    (keys : List Char → Option KeyRecord)
    (useNull debug cleanupFiles : Bool) (cutoff : Int)
    (items : List (List (List Char))) (st : DnsState) (B : List Char)
    (h : B ∈ st.failed) :
    B ∈ (processDomains env keys useNull debug cleanupFiles cutoff st items).failed := by
  induction items generalizing st with
  | nil => exact h
  | cons item rest ih =>
    simpa [processDomains, List.foldl_cons] using
      ih _ (processItem_failed_mono env keys useNull debug cleanupFiles cutoff st item B h)

/-- An item for domain `A` that resolves (module present, provider config
present, key present) and whose add fails puts `A` into the failed
list. -/
theorem processItem_A_failed (env : DnsApiEnv)
    (keys : List Char → Option KeyRecord)
    (useNull debug cleanupFiles : Bool) (cutoff : Int)
    (st : DnsState) (item : List (List Char)) (A : List Char)
    (dnsapiData : List (List Char)) (key : KeyRecord)
    (hlen : 2 < item.length) (hA : item.getD 0 [] = A)
    (hmod : env.hasModule (effectiveModuleName useNull (item.getD 2 [])) = true)
    (hinfo : env.dnsapiInfo (item.getD 2 []) = some dnsapiData)
    (hkey : keys (item.getD 1 []) = some key)
    (hfailA : ∀ n a d ctx dbg, ctx.domain = A → env.addF n a d ctx dbg = none) :
    A ∈ (processItem env keys useNull debug cleanupFiles cutoff st item).failed := by
  simp only [processItem, if_pos hlen, hmod, if_true, hinfo, hkey]
  rw [mem_addStep_failed]
  exact Or.inr ⟨hfailA _ _ _ _ _ hA, hA.symm⟩

/-- Owner-filtered carry-forward entries depend on the failed set only
through membership of that owner. -/
theorem carryEntries_owner_filter (ktd : List (List (List Char)))
    (f₁ f₂ : List (List Char)) (B : List Char)
    (hf : B ∈ f₁ ↔ B ∈ f₂) :
    (carryEntries ktd f₁).filter (fun e => decide (e.owner = B))
      = (carryEntries ktd f₂).filter (fun e => decide (e.owner = B)) := by
  induction ktd with
  | nil => rfl
  | cons keyItem rest ih =>
    by_cases h1 : splitColonHead (keyItem.getD 1 []) ∈ f₁ <;>
      by_cases h2 : splitColonHead (keyItem.getD 1 []) ∈ f₂
    · simp only [carryEntries, if_pos h1, if_pos h2, List.filter_cons]
      rw [ih]
    · have hkdB : ¬ splitColonHead (keyItem.getD 1 []) = B := by
        intro e
        apply h2
        rw [e]
        rw [e] at h1
        exact hf.mp h1
      simp only [carryEntries, if_pos h1, if_neg h2, List.filter_cons]
      rw [if_neg (by simp only [decide_eq_true_eq]; exact hkdB)]
      exact ih
    · have hkdB : ¬ splitColonHead (keyItem.getD 1 []) = B := by
        intro e
        apply h1
        rw [e]
        rw [e] at h2
        exact hf.mpr h2
      simp only [carryEntries, if_neg h1, if_pos h2, List.filter_cons]
      rw [if_neg (by simp only [decide_eq_true_eq]; exact hkdB)]
      exact ih
    · simp only [carryEntries, if_neg h1, if_neg h2]
      exact ih

/-- Owner-filtered fresh entries depend on the failed set only through
membership of that owner. -/
theorem freshEntries_owner_filter (dd : List (List (List Char)))
    (selector : List Char) (f₁ f₂ : List (List Char)) (B : List Char)
    (hf : B ∈ f₁ ↔ B ∈ f₂) :
    (freshEntries dd selector f₁).filter (fun e => decide (e.owner = B))
      = (freshEntries dd selector f₂).filter (fun e => decide (e.owner = B)) := by
  induction dd with
  | nil => rfl
  | cons item rest ih =>
    by_cases h1 : item.getD 0 [] ∈ f₁ <;> by_cases h2 : item.getD 0 [] ∈ f₂
    · simp only [freshEntries, if_pos h1, if_pos h2]
      exact ih
    · have hdB : ¬ item.getD 0 [] = B := by
        intro e
        apply h2
        rw [e]
        rw [e] at h1
        exact hf.mp h1
      simp only [freshEntries, if_pos h1, if_neg h2, List.filter_cons]
      rw [if_neg (by simp only [decide_eq_true_eq]; exact hdB)]
      exact ih
    · have hdB : ¬ item.getD 0 [] = B := by
        intro e
        apply h1
        rw [e]
        rw [e] at h2
        exact hf.mpr h2
      simp only [freshEntries, if_neg h1, if_pos h2, List.filter_cons]
      rw [if_neg (by simp only [decide_eq_true_eq]; exact hdB)]
      exact ih
    · simp only [freshEntries, if_neg h1, if_neg h2, List.filter_cons]
      rw [ih]

/-- Owner-filtered table output depends on the failed set only through
membership of that owner. -/
theorem emitEntries_owner_filter (ktd dd : List (List (List Char)))
    (selector : List Char) (f₁ f₂ : List (List Char)) (B : List Char)
    (hf : B ∈ f₁ ↔ B ∈ f₂) :
    (emitEntries ktd dd selector f₁).filter (fun e => decide (e.owner = B))
      = (emitEntries ktd dd selector f₂).filter (fun e => decide (e.owner = B)) := by
  unfold emitEntries
  rw [List.filter_append, List.filter_append,
    carryEntries_owner_filter ktd f₁ f₂ B hf,
    freshEntries_owner_filter dd selector f₁ f₂ B hf]

/-- A resolving item for domain `A` whose add fails puts `A` into the
failed list of the whole loop, wherever it sits in the registry. -/
theorem processDomains_A_failed (env : DnsApiEnv)
    (keys : List Char → Option KeyRecord)
    (useNull debug cleanupFiles : Bool) (cutoff : Int)
    (items : List (List (List Char))) (st : DnsState)
    (A : List Char) (item : List (List Char))
    (hlen : 2 < item.length) (hA : item.getD 0 [] = A)
    (hmod : env.hasModule (effectiveModuleName useNull (item.getD 2 [])) = true)
    (dnsapiData : List (List Char)) (key : KeyRecord)
    (hinfo : env.dnsapiInfo (item.getD 2 []) = some dnsapiData)
    (hkey : keys (item.getD 1 []) = some key)
    (hfailA : ∀ n a d ctx dbg, ctx.domain = A → env.addF n a d ctx dbg = none) :
    item ∈ items →
      A ∈ (processDomains env keys useNull debug cleanupFiles cutoff st items).failed := by
  induction items generalizing st with
  | nil =>
    intro h
    cases h
  | cons it rest ih =>
    intro hitem
    rcases List.mem_cons.mp hitem with rfl | hmem
    · have h1 := processItem_A_failed env keys useNull debug cleanupFiles cutoff st
        item A dnsapiData key hlen hA hmod hinfo hkey hfailA
      simp only [processDomains, List.foldl_cons]
      exact processDomains_failed_mono env keys useNull debug cleanupFiles cutoff rest _ A h1
    · simp only [processDomains, List.foldl_cons]
      exact ih _ hmem

/-- C4: if the provider add call for domain `A` reports failure while a
comparison run differs only in the outcomes of `A`'s add calls, then the
history records of any other domain `B`, `B`'s membership in the failed
set, and `B`'s emitted key-table/signing-table entries are identical in
the two runs (processing of `B` is never aborted: the loop is a total
fold), and `A` lands in the failed set as soon as its registry item
resolves to a module, provider config and key (genkeys.py lines
393-454 and 494-527). -/
theorem add_failure_isolation (env : DnsApiEnv)
    (addF₂ : List Char → List (List Char) → List (List Char) → AddCtx → Bool → Option HistRecord)
    (keys : List Char → Option KeyRecord)
    (useNull debug cleanupFiles : Bool) (cutoff : Int)
    (A B : List Char) (hAB : ¬ A = B)
    (hAdd : ∀ n a d ctx dbg, ¬ ctx.domain = A →
      addF₂ n a d ctx dbg = env.addF n a d ctx dbg)
    (hdom₁ : ∀ n a d ctx dbg r, env.addF n a d ctx dbg = some r → r.domain = ctx.domain)
    (hdom₂ : ∀ n a d ctx dbg r, addF₂ n a d ctx dbg = some r → r.domain = ctx.domain)
    (hfailA : ∀ n a d ctx dbg, ctx.domain = A → env.addF n a d ctx dbg = none)
    (items : List (List (List Char))) (ud0 : Option (List HistRecord))
    (ktd : List (List (List Char))) (selector : List Char) :
    histFor B (processDomains env keys useNull debug cleanupFiles cutoff
        { updateData := ud0, failed := [] } items).updateData
      = histFor B (processDomains { env with addF := addF₂ } keys useNull debug cleanupFiles cutoff
        { updateData := ud0, failed := [] } items).updateData
    ∧ (B ∈ (processDomains env keys useNull debug cleanupFiles cutoff
          { updateData := ud0, failed := [] } items).failed
        ↔ B ∈ (processDomains { env with addF := addF₂ } keys useNull debug cleanupFiles cutoff
          { updateData := ud0, failed := [] } items).failed)
    ∧ (emitEntries ktd items selector
          (processDomains env keys useNull debug cleanupFiles cutoff
            { updateData := ud0, failed := [] } items).failed).filter
          (fun e => decide (e.owner = B))
        = (emitEntries ktd items selector
          (processDomains { env with addF := addF₂ } keys useNull debug cleanupFiles cutoff
            { updateData := ud0, failed := [] } items).failed).filter
          (fun e => decide (e.owner = B))
    ∧ (∀ item ∈ items, 2 < item.length → item.getD 0 [] = A →
        env.hasModule (effectiveModuleName useNull (item.getD 2 [])) = true →
        ∀ dnsapiData key, env.dnsapiInfo (item.getD 2 []) = some dnsapiData →
          keys (item.getD 1 []) = some key →
          A ∈ (processDomains env keys useNull debug cleanupFiles cutoff
            { updateData := ud0, failed := [] } items).failed) := by
  have iso := processDomains_isolation env addF₂ keys useNull debug cleanupFiles cutoff
    A B hAB hAdd hdom₁ hdom₂ items
    { updateData := ud0, failed := [] } { updateData := ud0, failed := [] } rfl Iff.rfl
  refine ⟨iso.1, iso.2, emitEntries_owner_filter ktd items selector _ _ B iso.2, ?_⟩
  intro item hitem hlen hA hmod dnsapiData key hinfo hkey
  exact processDomains_A_failed env keys useNull debug cleanupFiles cutoff items
    { updateData := ud0, failed := [] } A item hlen hA hmod dnsapiData key
    hinfo hkey hfailA hitem

/-- A provider environment whose add fails exactly for `a.com`. -/
def envW : DnsApiEnv :=
  { hasModule := fun _ => true
    addF := fun _ _ _ ctx _ =>
      if ctx.domain = "a.com".data then none
      else some { domain := ctx.domain, selector := ctx.selector, created_at := 5 }
    delF := fun _ _ _ _ _ => none
    dnsapiInfo := fun _ => some [] }

/-- The same provider environment's add table with `a.com` succeeding. -/
def addF2W : List Char → List (List Char) → List (List Char) → AddCtx → Bool → Option HistRecord :=
  fun _ _ _ ctx _ => some { domain := ctx.domain, selector := ctx.selector, created_at := 5 }

/-- A key assignment giving every key name the same record. -/
def keysW : List Char → Option KeyRecord :=
  fun _ => some { selector := "202401".data, plain := "p".data, chunked := "c".data }

/-- A two-domain registry: `a.com` and `b.com` share key `k1` and API `api`. -/
def itemsW : List (List (List Char)) :=
  [["a.com".data, "k1".data, "api".data], ["b.com".data, "k1".data, "api".data]]

theorem add_failure_isolation_witness :
    (¬ "a.com".data = "b.com".data)
    ∧ (histFor "b.com".data (processDomains envW keysW false false true 0
          { updateData := some [], failed := [] } itemsW).updateData
        = histFor "b.com".data (processDomains { envW with addF := addF2W } keysW false false true 0
          { updateData := some [], failed := [] } itemsW).updateData
      ∧ ("b.com".data ∈ (processDomains envW keysW false false true 0
            { updateData := some [], failed := [] } itemsW).failed
          ↔ "b.com".data ∈ (processDomains { envW with addF := addF2W } keysW false false true 0
            { updateData := some [], failed := [] } itemsW).failed)
      ∧ (emitEntries [] itemsW "202401".data
            (processDomains envW keysW false false true 0
              { updateData := some [], failed := [] } itemsW).failed).filter
            (fun e => decide (e.owner = "b.com".data))
          = (emitEntries [] itemsW "202401".data
            (processDomains { envW with addF := addF2W } keysW false false true 0
              { updateData := some [], failed := [] } itemsW).failed).filter
            (fun e => decide (e.owner = "b.com".data))
      ∧ (∀ item ∈ itemsW, 2 < item.length → item.getD 0 [] = "a.com".data →
          envW.hasModule (effectiveModuleName false (item.getD 2 [])) = true →
          ∀ dnsapiData key, envW.dnsapiInfo (item.getD 2 []) = some dnsapiData →
            keysW (item.getD 1 []) = some key →
            "a.com".data ∈ (processDomains envW keysW false false true 0
              { updateData := some [], failed := [] } itemsW).failed)) :=
  ⟨by decide,
    add_failure_isolation envW addF2W keysW false false true 0
      "a.com".data "b.com".data (by decide)
      (by
        intro n a d ctx dbg h
        simp only [envW, addF2W]
        rw [if_neg h])
      (by
        intro n a d ctx dbg r h
        simp only [envW] at h
        by_cases hc : ctx.domain = "a.com".data
        · rw [if_pos hc] at h
          exact Option.noConfusion h
        · rw [if_neg hc] at h
          injection h with h2
          rw [← h2])
      (by
        intro n a d ctx dbg r h
        simp only [addF2W] at h
        injection h with h2
        rw [← h2])
      (by
        intro n a d ctx dbg h
        simp only [envW]
        rw [if_pos h])
      itemsW (some []) [] "202401".data⟩

end Genkeys

namespace Genkeys

/-- Python list index assignment `l[i] = v`: `none` models the
`IndexError` raised when `i` is out of range (lists do not grow on
assignment). -/
def pySetIdx {α : Type} : List α → Nat → α → Option (List α)
  | [], _, _ => none
  | _ :: rest, 0, v => some (v :: rest)
  | c :: rest, n + 1, v => (pySetIdx rest n v).map (c :: ·)

/-- genkeys.py lines 342-344: `if len(item) < 3 or item[2] is None:
item[2] = 'null'`.  The fields produced by `str.split` are never `None`,
so the `is None` disjunct never fires for well-formed rows; the
`len(item) < 3` branch performs the out-of-range assignment. -/
def normalizeItem (item : List (List Char)) : Option (List (List Char)) :=
  if item.length < 3 then pySetIdx item 2 "null".data else some item

/-- The normalization loop over the whole registry, propagating the
uncaught `IndexError`. -/
def normalizeDomainData : List (List (List Char)) → Option (List (List (List Char)))
  | [] => some []
  | item :: rest =>
    match normalizeItem item with
    | none => none
    | some it => (normalizeDomainData rest).map (it :: ·)

/-- genkeys.py lines 346-349: collect `item[1]` of every registry row, in
order, without duplicates; a row with fewer than two fields raises an
uncaught `IndexError` (`none`). -/
def keyNamesGo : List (List Char) → List (List (List Char)) → Option (List (List Char))
  | acc, [] => some acc
  | acc, item :: rest =>
    match item.get? 1 with
    | none => none
    | some k => keyNamesGo (if k ∈ acc then acc else acc ++ [k]) rest

/-- The key-name list of the registry (genkeys.py lines 346-349). -/
def keyNamesOf (items : List (List (List Char))) : Option (List (List Char)) :=
  keyNamesGo [] items

/-- genkeys.py lines 352-359: generate one key per key name, in order; the
first failure makes the whole run exit. -/
def genAll (gen : List Char → Option KeyRecord) :
    List (List Char) → Option (List (List Char × KeyRecord))
  | [] => some []
  | k :: rest =>
    match gen k with
    | none => none
    | some kr => (genAll gen rest).map ((k, kr) :: ·)

/-- Lookup in the generated-keys association list (the `keys` dict). -/
def keysFind : List (List Char × KeyRecord) → List Char → Option KeyRecord
  | [], _ => none
  | (n, kr) :: rest, name => if n = name then some kr else keysFind rest name

/-- How a run ends abnormally: an explicit `sys.exit(code)` or an uncaught
Python exception. -/
inductive RunAbort where
  | exit (code : Nat)
  | uncaught
deriving DecidableEq, Repr

/-- What a completed run leaves behind: the rewritten history (`none`
when dns_update_data.ini is not rewritten), the failed-domain list, and
the key-table/signing-table rows. -/
structure MainOutput where
  history : Option (List HistRecord)
  failed : List (List Char)
  entries : List TableEntry
deriving Repr

/-- The inputs and effect handlers of the main script after argument
parsing and dnsapi.ini processing: the parsed domains.ini (`none` when
unreadable, genkeys.py lines 337-340), the previously persisted key
table and history, `gen_key` specialised to the run's selector and
flags, the CLI-derived flags, the DNS environment, and whether the
output table files can be created (genkeys.py lines 496-502). -/
structure MainInput where
  domainFile : Option (List (List (List Char)))
  keyTableFile : Option (List (List (List Char)))
  updateFile : Option (List HistRecord)
  gen : List Char → Option KeyRecord
  shouldUpdateDns : Bool
  cleanupFiles : Bool
  useNull : Bool
  debug : Bool
  cutoff : Int
  dnsEnv : DnsApiEnv
  selector : List Char
  tablesWritable : Bool

/-- The main script from domains.ini processing to the table write
(genkeys.py lines 336-529): missing registry exits 1; the normalization
and key-name loops can raise; any key-generation failure exits 1 before
any table output exists; with DNS updates enabled the orchestrator fold
runs and the history is rewritten (when loaded); without them,
`failed_domains` is never assigned, so a nonempty prior key table or
registry raises an uncaught `NameError` in the table loops (genkeys.py
lines 392, 506, 517); unwritable table files exit 1.  Obsolete key-file
deletion (lines 459-492) touches only the filesystem and is not part of
the modelled output. -/
def runMain (inp : MainInput) : Except RunAbort MainOutput :=
  match inp.domainFile with
  | none => .error (.exit 1)
  | some dd0 =>
    match normalizeDomainData dd0 with
    | none => .error .uncaught
    | some dd =>
      match keyNamesOf dd with
      | none => .error .uncaught
      | some kns =>
        match genAll inp.gen kns with
        | none => .error (.exit 1)
        | some ks =>
          let ktd := inp.keyTableFile.getD []
          let st :=
            if inp.shouldUpdateDns then
              processDomains inp.dnsEnv (keysFind ks) inp.useNull inp.debug
                inp.cleanupFiles inp.cutoff
                { updateData := inp.updateFile, failed := [] } dd
            else { updateData := inp.updateFile, failed := [] }
          if ¬ inp.tablesWritable then .error (.exit 1)
          else if ¬ inp.shouldUpdateDns ∧ (¬ ktd = [] ∨ ¬ dd = []) then .error .uncaught
          else .ok { history := if inp.shouldUpdateDns then st.updateData else none
                     failed := st.failed
                     entries := emitEntries ktd dd inp.selector st.failed }

/-- One failing key name makes the generation loop fail as a whole. -/
theorem genAll_none (gen : List Char → Option KeyRecord)
    (kns : List (List Char)) (k : List Char)
    (hk : k ∈ kns) (hgen : gen k = none) : genAll gen kns = none := by
  induction kns with
  | nil => cases hk
  | cons a rest ih =>
    rcases List.mem_cons.mp hk with rfl | hmem
    · simp [genAll, hgen]
    · simp only [genAll]
      cases ha : gen a with
      | none => rfl
      | some kr => simp [ih hmem]

/-- C5: when the registry loads and normalizes and some key name's
generation fails, the run aborts with exit status 1; no `MainOutput` (and
so no key-table or signing-table row for any domain) is produced
(genkeys.py lines 351-359, before the table files are even opened at
line 497). -/
theorem keygen_failure_aborts_run (inp : MainInput)
    (dd dd2 : List (List (List Char))) (kns : List (List Char)) (k : List Char)
    (h0 : inp.domainFile = some dd)
    (h1 : normalizeDomainData dd = some dd2)
    (h2 : keyNamesOf dd2 = some kns)
    (hk : k ∈ kns) (hgen : inp.gen k = none) :
    runMain inp = .error (.exit 1) := by
  have hga : genAll inp.gen kns = none := genAll_none inp.gen kns k hk hgen
  simp only [runMain, h0, h1, h2, hga]

/-- A DNS environment with nothing loaded. -/
def trivialDnsEnv : DnsApiEnv :=
  { hasModule := fun _ => false
    addF := fun _ _ _ _ _ => none
    delF := fun _ _ _ _ _ => none
    dnsapiInfo := fun _ => none }

/-- A run whose only registry row is `a.com k null` and whose key
generation always fails. -/
def inpC5 : MainInput :=
  { domainFile := some [["a.com".data, "k".data, "null".data]]
    keyTableFile := none
    updateFile := none
    gen := fun _ => none
    shouldUpdateDns := false
    cleanupFiles := true
    useNull := false
    debug := false
    cutoff := 0
    dnsEnv := trivialDnsEnv
    selector := "202401".data
    tablesWritable := true }

theorem keygen_failure_aborts_run_witness :
    inpC5.gen "k".data = none ∧ runMain inpC5 = .error (.exit 1) :=
  ⟨rfl,
    keygen_failure_aborts_run inpC5 [["a.com".data, "k".data, "null".data]]
      [["a.com".data, "k".data, "null".data]] ["k".data] "k".data
      rfl (by decide) (by decide) (by decide) rfl⟩

/-- A run whose only registry row omits the provider name. -/
def inpC9 : MainInput :=
  { domainFile := some [["example.com".data, "keyA".data]]
    keyTableFile := none
    updateFile := none
    gen := fun _ => none
    shouldUpdateDns := false
    cleanupFiles := true
    useNull := false
    debug := false
    cutoff := 0
    dnsEnv := trivialDnsEnv
    selector := "202401".data
    tablesWritable := true }

/-- C9 (code bug): a registry record with only `[domain, key_name]` makes
the normalization `item[2] = 'null'` raise `IndexError` (Python lists do
not grow on index assignment), so the run dies with an uncaught exception
instead of defaulting the provider to "null" and continuing as both the
spec and the source's own comment (genkeys.py line 341) describe. -/
theorem missing_provider_name_crashes :
    normalizeDomainData [["example.com".data, "keyA".data]] = none
    ∧ runMain inpC9 = .error .uncaught :=
  ⟨rfl, rfl⟩

end Genkeys
